import Mathlib

/-!
Verification of the `SingleLinkedList` container from
src/single-linked-list/single-linked-list.h.

Embedding. A list object holds a sentinel node `head_` and a counter
`size_`; the real nodes form a chain hanging off `head_.next_node`.  We
embed a list state as the sequence `elems` of values stored in the real
nodes, in chain order, together with the stored counter `size_`.  Note
`size_` is kept as a separate field, exactly as in the source: the code
can (and, as shown below, does) let it disagree with the length of the
chain.

Positions (iterators) are node references.  We number the nodes of a
chain: node 0 is the sentinel `head_`, node i+1 is the node holding
`elems[i]`.  An iterator is `Option Nat`: `some k` references node `k`,
`none` is the null reference, i.e. `end()`.  Operations that take a
valid (non-end) position take a bare `Nat` node index, mirroring that
the C++ code dereferences `pos.node_` unconditionally there.
-/

/-- State of a `SingleLinkedList<Type>` object: the values in the real
node chain reachable from `head_.next_node`, in order, plus the stored
`size_` counter (kept separate, as in the source). -/
structure SingleLinkedList (α : Type) where
  elems : List α
  size_ : Nat
  deriving DecidableEq

variable {α : Type}

/-- `PushFront` (lines 303-307): prepend one node holding `value` and
increment `size_`. -/
def PushFront (s : SingleLinkedList α) (value : α) : SingleLinkedList α :=
  ⟨value :: s.elems, s.size_ + 1⟩

/-- `InsertAfter` (lines 247-260).  `pos` is the node index of a valid
position (0 is `cbefore_begin()`, i.e. the sentinel).  The source reads:
if `pos == cbefore_begin()` then { `PushFront(value); ++size_;` return
`begin()` } else { allocate a node whose link is the old `pos.next`,
set `pos.next` to it, `++size_`, return an iterator to the new node }.
Returns the new state and the node index of the returned iterator
(in the new chain the inserted node is node `pos + 1`; `begin()` is
node 1). -/
def InsertAfter (s : SingleLinkedList α) (pos : Nat) (value : α) :
    SingleLinkedList α × Nat :=
  if pos = 0 then
    let s1 := PushFront s value
    (⟨s1.elems, s1.size_ + 1⟩, 1)
  else
    (⟨s.elems.take pos ++ value :: s.elems.drop pos, s.size_ + 1⟩, pos + 1)

/-- `EraseAfter` (lines 262-271): unlink and free the node after node
`pos` (that node holds element `pos` of `elems`), relink `pos.next` to
its former successor, decrement `size_`, and return an iterator to the
new `pos.next` (the null iterator `none`, i.e. `end()`, when the erased
node was last). -/
def EraseAfter (s : SingleLinkedList α) (pos : Nat) :
    SingleLinkedList α × Option Nat :=
  let remaining := s.elems.take pos ++ s.elems.drop (pos + 1)
  (⟨remaining, s.size_ - 1⟩,
   if pos + 1 ≤ remaining.length then some (pos + 1) else none)

/-- `PopFront` (lines 331-338): free the first real node, relink the
sentinel to the second, decrement `size_`.  Precondition (asserted in
the source): the list is non-empty. -/
def PopFront (s : SingleLinkedList α) : SingleLinkedList α :=
  ⟨s.elems.tail, s.size_ - 1⟩

/-- `Clear` (lines 309-317): free every real node, then set `size_`
to 0. -/
def Clear (_s : SingleLinkedList α) : SingleLinkedList α :=
  ⟨[], 0⟩

/-- `GetSize` (lines 354-357): returns the stored counter. -/
def GetSize (s : SingleLinkedList α) : Nat :=
  s.size_

/-- `IsEmpty` (lines 349-352): tests the stored counter.  (Named
`IsEmptyList` here because `IsEmpty` is taken by the Lean core
library.) -/
def IsEmptyList (s : SingleLinkedList α) : Bool :=
  s.size_ == 0

/-- Member `swap` (lines 319-329): exchange the sentinel links and the
counters of the two objects.  Returns the pair (new this, new other). -/
def swapOp (a b : SingleLinkedList α) :
    SingleLinkedList α × SingleLinkedList α :=
  (⟨b.elems, b.size_⟩, ⟨a.elems, a.size_⟩)

/-- The first loop of `MakeList` (lines 292-296): push each value of the
input range, in iteration order, onto a temporary stack (head of the
list = top of the stack). -/
def stackFillLoop : List α → List α → List α
  | [], stk => stk
  | v :: rest, stk => stackFillLoop rest (v :: stk)

/-- The second loop of `MakeList` (lines 297-300): while the stack is
non-empty, `PushFront` its top and pop it. -/
def stackDrainLoop : List α → SingleLinkedList α → SingleLinkedList α
  | [], s => s
  | t :: rest, s => stackDrainLoop rest (PushFront s t)

/-- `MakeList(start, end)` (lines 290-301), applied to the object state
`s` with the input range listed as `vals`. -/
def MakeList (vals : List α) (s : SingleLinkedList α) : SingleLinkedList α :=
  stackDrainLoop (stackFillLoop vals []) s

/-- The constructor from `std::initializer_list` (lines 273-277):
starting from the default state (`head_.next_node == nullptr`,
`size_ == 0`), run `MakeList` over the given values, then assign
`size_ = values.size()`. -/
def fromValues (vals : List α) : SingleLinkedList α :=
  let s := MakeList vals ⟨[], 0⟩
  ⟨s.elems, vals.length⟩

/-- The copy constructor (lines 279-283): starting from the default
state, run `MakeList` over the iteration sequence of `other` (which is
`other.elems`), then assign `size_ = other.size_`. -/
def copyCtor (other : SingleLinkedList α) : SingleLinkedList α :=
  let s := MakeList other.elems ⟨[], 0⟩
  ⟨s.elems, other.size_⟩

/-- Copy-assignment `operator=` (lines 340-347): if `this != &rhs`,
build a temporary copy of `rhs` and swap with it; otherwise do nothing.
Aliasing of the two operands is passed explicitly as `isSelf`
(the result of the address comparison `this == &rhs`).  Returns the new
state of the left operand. -/
def assignOp (self rhs : SingleLinkedList α) (isSelf : Bool) :
    SingleLinkedList α :=
  if isSelf then self
  else (swapOp self (copyCtor rhs)).1

/-- `std::equal(first1, last1, first2, last2)` over the two iteration
sequences, as used by `operator==` (lines 365-368): true iff the ranges
have the same length and pairwise equal elements. -/
def seqEqual [DecidableEq α] : List α → List α → Bool
  | [], [] => true
  | a :: as, b :: bs => if a = b then seqEqual as bs else false
  | _, _ => false

/-- `operator==` (lines 365-368): `std::equal` over the two iteration
sequences (the chains; the `size_` fields are not consulted). -/
def opEq [DecidableEq α] (lhs rhs : SingleLinkedList α) : Bool :=
  seqEqual lhs.elems rhs.elems

/-- `std::lexicographical_compare(first1, last1, first2, last2)`:
advance both ranges while both are non-empty, deciding on the first
elements that compare unequal; when a range runs out, the result is
true iff the first range is exhausted and the second is not. -/
def lexicographicalCompare [LinearOrder α] : List α → List α → Bool
  | _, [] => false
  | [], _ :: _ => true
  | a :: as, b :: bs =>
    if a < b then true else if b < a then false
    else lexicographicalCompare as bs

/-- `operator<` (lines 375-378): `std::lexicographical_compare` over
the two iteration sequences. -/
def opLt [LinearOrder α] (lhs rhs : SingleLinkedList α) : Bool :=
  lexicographicalCompare lhs.elems rhs.elems

/-- The structural invariant stated by the spec: the stored counter
equals the number of real nodes reachable from the sentinel. -/
abbrev wf (s : SingleLinkedList α) : Prop :=
  s.size_ = s.elems.length

/-- The forward link of node `k` in the chain of `s` (node 0 is the
sentinel, node i+1 holds element i): node `k + 1` when it exists,
otherwise the null reference. -/
def nextNode (s : SingleLinkedList α) (k : Nat) : Option Nat :=
  if k + 1 ≤ s.elems.length then some (k + 1) else none

/-- `BasicIterator::operator++` (lines 93-97): if `node_ != nullptr`,
follow the forward link; a null iterator is left unchanged. -/
def iterInc (s : SingleLinkedList α) (it : Option Nat) : Option Nat :=
  match it with
  | none => none
  | some k => nextNode s k

/-! ### Auxiliary lemmas -/

theorem stackFillLoop_eq (vals stk : List α) :
    stackFillLoop vals stk = vals.reverse ++ stk := by
  induction vals generalizing stk with
  | nil => simp [stackFillLoop]
  | cons v rest ih => simp [stackFillLoop, ih]

theorem stackDrainLoop_elems (stk : List α) (s : SingleLinkedList α) :
    (stackDrainLoop stk s).elems = stk.reverse ++ s.elems := by
  induction stk generalizing s with
  | nil => simp [stackDrainLoop]
  | cons t rest ih => simp [stackDrainLoop, ih, PushFront]

theorem MakeList_elems (vals : List α) (s : SingleLinkedList α) :
    (MakeList vals s).elems = vals ++ s.elems := by
  simp [MakeList, stackDrainLoop_elems, stackFillLoop_eq]

theorem seqEqual_iff [DecidableEq α] (as bs : List α) :
    seqEqual as bs = true ↔ as = bs := by
  induction as generalizing bs with
  | nil => cases bs <;> simp [seqEqual]
  | cons a as ih =>
    cases bs with
    | nil => simp [seqEqual]
    | cons b bs =>
      by_cases h : a = b <;> simp [seqEqual, h, ih]

theorem lexicographicalCompare_iff [LinearOrder α] (as bs : List α) :
    lexicographicalCompare as bs = true ↔ List.Lex (· < ·) as bs := by
  induction as generalizing bs with
  | nil =>
    cases bs with
    | nil =>
      simp [lexicographicalCompare]
    | cons b bs =>
      simp [lexicographicalCompare]
      exact List.Lex.nil
  | cons a as ih =>
    cases bs with
    | nil => simp [lexicographicalCompare]
    | cons b bs =>
      rcases lt_trichotomy a b with h | h | h
      · simp [lexicographicalCompare, h]
        exact List.Lex.rel h
      · subst h
        simp [lexicographicalCompare, lt_irrefl, ih]
        constructor
        · exact List.Lex.cons
        · intro hx
          cases hx with
          | cons hx => exact hx
          | rel hx => exact absurd hx (lt_irrefl a)
      · simp [lexicographicalCompare, h, not_lt_of_gt h]
        intro hx
        cases hx with
        | cons hx => exact absurd h (lt_irrefl a)
        | rel hx => exact absurd h (not_lt_of_gt hx)

theorem lex_append_of_ne_nil [LinearOrder α] (l t : List α) (ht : t ≠ []) :
    List.Lex (· < ·) l (l ++ t) := by
  induction l with
  | nil =>
    cases t with
    | nil => exact absurd rfl ht
    | cons x xs => exact List.Lex.nil
  | cons a as ih => exact List.Lex.cons ih

/-! ### Claims -/

/-- C1: the claim states that `InsertAfter(before_begin(), v)` behaves
identically to `PushFront(v)` (same resulting size and iteration
order).  The code violates this: on the empty list with v = 5, both
produce the chain [5], but `InsertAfter` leaves `size_ == 2` (it calls
`PushFront`, which increments `size_`, and then increments `size_`
again) while `PushFront` leaves `size_ == 1`. -/
theorem insertAfter_beforeBegin_vs_pushFront_bug :
    (InsertAfter (⟨[], 0⟩ : SingleLinkedList Int) 0 5).1.elems
        = (PushFront (⟨[], 0⟩ : SingleLinkedList Int) 5).elems
    ∧ (InsertAfter (⟨[], 0⟩ : SingleLinkedList Int) 0 5).1.size_ = 2
    ∧ (PushFront (⟨[], 0⟩ : SingleLinkedList Int) 5).size_ = 1 := by
  decide

/-- C2: the claim states that after every interface operation the
stored `size_` equals the number of real nodes reachable from the
sentinel.  The code violates this: starting from the well-formed empty
list, `InsertAfter(before_begin(), 7)` leaves `size_ == 2` while
exactly one real node is reachable. -/
theorem size_invariant_broken_by_insertAfter :
    wf (⟨[], 0⟩ : SingleLinkedList Int)
    ∧ ¬ wf (InsertAfter (⟨[], 0⟩ : SingleLinkedList Int) 0 7).1 := by
  decide

/-- C3: the claim states that `InsertAfter(pos, v)` at any valid
position, the before-begin sentinel included, inserts one node and
increases the size by exactly one.  The code violates the size part at
the sentinel position: on the list [10], `InsertAfter(before_begin(),
5)` inserts exactly one node (chain becomes [5, 10]) and returns the
position of the new node (node 1), but sets `size_` to 3, an increase
of two. -/
theorem insertAfter_size_double_increment :
    (InsertAfter (⟨[10], 1⟩ : SingleLinkedList Int) 0 5).1.elems = [5, 10]
    ∧ (InsertAfter (⟨[10], 1⟩ : SingleLinkedList Int) 0 5).2 = 1
    ∧ (InsertAfter (⟨[10], 1⟩ : SingleLinkedList Int) 0 5).1.size_ = 3 := by
  decide

/-- C4: for every list state and every node index `pos` whose successor
exists (`pos < |elems|`, so node `pos` and node `pos + 1` both exist),
`EraseAfter(pos)` removes exactly the element held by node `pos + 1`
(leaving all other elements in their order), decrements the stored
size by one, and returns an iterator to the new `pos.next`: node
`pos + 1` of the new chain when the erased node had a successor,
`end()` otherwise. -/
theorem eraseAfter_correct (s : SingleLinkedList α) (pos : Nat)
    (h : pos < s.elems.length) :
    (EraseAfter s pos).1.elems = s.elems.eraseIdx pos
    ∧ (EraseAfter s pos).1.size_ = s.size_ - 1
    ∧ (EraseAfter s pos).2
        = (if pos + 1 < s.elems.length then some (pos + 1) else none) := by
  refine ⟨?_, rfl, ?_⟩
  · simp [EraseAfter, List.eraseIdx_eq_take_drop_succ]
  · have hlen : (s.elems.take pos ++ s.elems.drop (pos + 1)).length
        = s.elems.length - 1 := by
      simp [List.length_take, List.length_drop]
      omega
    simp only [EraseAfter, hlen]
    by_cases hc : pos + 1 < s.elems.length
    · rw [if_pos (by omega), if_pos hc]
    · rw [if_neg (by omega), if_neg hc]

/-- C4 witness: instance of eraseAfter_correct on the list [10, 20, 30]
with stored size 3 at position 1 (erasing the node holding 20). -/
theorem eraseAfter_correct_witness :
    1 < (⟨[10, 20, 30], 3⟩ : SingleLinkedList Int).elems.length
    ∧ ((EraseAfter (⟨[10, 20, 30], 3⟩ : SingleLinkedList Int) 1).1.elems
          = (⟨[10, 20, 30], 3⟩ : SingleLinkedList Int).elems.eraseIdx 1
      ∧ (EraseAfter (⟨[10, 20, 30], 3⟩ : SingleLinkedList Int) 1).1.size_
          = (⟨[10, 20, 30], 3⟩ : SingleLinkedList Int).size_ - 1
      ∧ (EraseAfter (⟨[10, 20, 30], 3⟩ : SingleLinkedList Int) 1).2
          = (if 1 + 1 < (⟨[10, 20, 30], 3⟩ :
                SingleLinkedList Int).elems.length
             then some (1 + 1) else none)) :=
  ⟨by decide,
   eraseAfter_correct (⟨[10, 20, 30], 3⟩ : SingleLinkedList Int) 1
     (by decide)⟩

/-- C5: for every non-empty list, `EraseAfter(before_begin())` (node
index 0) leaves exactly the state `PopFront()` leaves: the first real
element is removed and the resulting chain and stored size agree. -/
theorem eraseAfter_beforeBegin_eq_popFront (s : SingleLinkedList α)
    (h : s.elems ≠ []) :
    (EraseAfter s 0).1.elems = (PopFront s).elems
    ∧ (EraseAfter s 0).1.size_ = (PopFront s).size_ := by
  refine ⟨?_, rfl⟩
  cases s with
  | mk elems size_ =>
    cases elems with
    | nil => exact absurd rfl h
    | cons v rest => simp [EraseAfter, PopFront]

/-- C5 witness: instance of eraseAfter_beforeBegin_eq_popFront on the
non-empty list [7, 8] with stored size 2. -/
theorem eraseAfter_beforeBegin_eq_popFront_witness :
    (⟨[7, 8], 2⟩ : SingleLinkedList Int).elems ≠ []
    ∧ ((EraseAfter (⟨[7, 8], 2⟩ : SingleLinkedList Int) 0).1.elems
          = (PopFront (⟨[7, 8], 2⟩ : SingleLinkedList Int)).elems
      ∧ (EraseAfter (⟨[7, 8], 2⟩ : SingleLinkedList Int) 0).1.size_
          = (PopFront (⟨[7, 8], 2⟩ : SingleLinkedList Int)).size_) :=
  ⟨by decide,
   eraseAfter_beforeBegin_eq_popFront (⟨[7, 8], 2⟩ : SingleLinkedList Int)
     (by decide)⟩

/-- C6: constructing a list from an ordered sequence of initial values
(the initializer-list constructor, which runs `MakeList` through a
temporary stack) yields a list whose iteration order is exactly the
given order and whose stored size is the number of given values. -/
theorem fromValues_correct (vals : List α) :
    (fromValues vals).elems = vals
    ∧ (fromValues vals).size_ = vals.length := by
  constructor
  · simp [fromValues, MakeList_elems]
  · rfl

/-- C7: copy construction yields a list equal to the original under
the container's element-wise equality (`operator==`), with the same
stored size and the same values in the same order. -/
theorem copyCtor_correct [DecidableEq α] (other : SingleLinkedList α) :
    opEq (copyCtor other) other = true
    ∧ (copyCtor other).size_ = other.size_
    ∧ (copyCtor other).elems = other.elems := by
  have helems : (copyCtor other).elems = other.elems := by
    simp [copyCtor, MakeList_elems]
  refine ⟨?_, rfl, helems⟩
  rw [opEq, seqEqual_iff, helems]

/-- C8: self-assignment is a no-op.  In `operator=` the address
comparison `this != &rhs` fails for `lst = lst`, so the body is
skipped: the chain and the stored size afterwards are exactly as
before. -/
theorem selfAssign_noop (s : SingleLinkedList α) :
    (assignOp s s true).elems = s.elems
    ∧ (assignOp s s true).size_ = s.size_ := by
  constructor <;> rfl

/-- C9: over well-formed states, `operator==` holds iff the two lists
have the same size and the same elements in the same order;
`operator<` computes exactly the lexicographic strict order on the
element sequences; a list whose element sequence is a strict prefix of
the other's orders strictly before it, and in particular the empty
list orders strictly before every non-empty list. -/
theorem comparison_operators_correct [LinearOrder α]
    (lhs rhs : SingleLinkedList α) (h1 : wf lhs) (h2 : wf rhs) :
    (opEq lhs rhs = true ↔ (lhs.size_ = rhs.size_ ∧ lhs.elems = rhs.elems))
    ∧ (opLt lhs rhs = true ↔ List.Lex (· < ·) lhs.elems rhs.elems)
    ∧ ((∃ t, t ≠ [] ∧ rhs.elems = lhs.elems ++ t) → opLt lhs rhs = true)
    ∧ (lhs.elems = [] → rhs.elems ≠ [] → opLt lhs rhs = true) := by
  refine ⟨?_, ?_, ?_, ?_⟩
  · rw [opEq, seqEqual_iff]
    constructor
    · intro h
      refine ⟨?_, h⟩
      rw [h1, h2, h]
    · intro h
      exact h.2
  · exact lexicographicalCompare_iff lhs.elems rhs.elems
  · rintro ⟨t, ht, hrhs⟩
    rw [opLt, lexicographicalCompare_iff, hrhs]
    exact lex_append_of_ne_nil lhs.elems t ht
  · intro hl hr
    rw [opLt, lexicographicalCompare_iff, hl]
    cases hx : rhs.elems with
    | nil => exact absurd hx hr
    | cons b bs => exact List.Lex.nil

/-- C9 witness: instance of comparison_operators_correct on the
well-formed lists [1, 2] and [1, 2, 3]. -/
theorem comparison_operators_correct_witness :
    wf (⟨[1, 2], 2⟩ : SingleLinkedList Int)
    ∧ wf (⟨[1, 2, 3], 3⟩ : SingleLinkedList Int)
    ∧ ((opEq (⟨[1, 2], 2⟩ : SingleLinkedList Int) ⟨[1, 2, 3], 3⟩ = true
          ↔ ((⟨[1, 2], 2⟩ : SingleLinkedList Int).size_
                = (⟨[1, 2, 3], 3⟩ : SingleLinkedList Int).size_
             ∧ (⟨[1, 2], 2⟩ : SingleLinkedList Int).elems
                = (⟨[1, 2, 3], 3⟩ : SingleLinkedList Int).elems))
      ∧ (opLt (⟨[1, 2], 2⟩ : SingleLinkedList Int) ⟨[1, 2, 3], 3⟩ = true
          ↔ List.Lex (· < ·)
              (⟨[1, 2], 2⟩ : SingleLinkedList Int).elems
              (⟨[1, 2, 3], 3⟩ : SingleLinkedList Int).elems)
      ∧ ((∃ t, t ≠ []
            ∧ (⟨[1, 2, 3], 3⟩ : SingleLinkedList Int).elems
                = (⟨[1, 2], 2⟩ : SingleLinkedList Int).elems ++ t)
          → opLt (⟨[1, 2], 2⟩ : SingleLinkedList Int) ⟨[1, 2, 3], 3⟩
              = true)
      ∧ ((⟨[1, 2], 2⟩ : SingleLinkedList Int).elems = []
          → (⟨[1, 2, 3], 3⟩ : SingleLinkedList Int).elems ≠ []
          → opLt (⟨[1, 2], 2⟩ : SingleLinkedList Int) ⟨[1, 2, 3], 3⟩
              = true)) :=
  ⟨by decide, by decide,
   comparison_operators_correct (⟨[1, 2], 2⟩ : SingleLinkedList Int)
     ⟨[1, 2, 3], 3⟩ (by decide) (by decide)⟩

/-- C10: incrementing an iterator that equals `end()` (the null node
reference) is a no-op: `operator++` tests `node_ != nullptr` before
following the link, so the iterator stays equal to `end()` and no
link of an invalid node is ever followed. -/
theorem iterInc_end_noop (s : SingleLinkedList α) :
    iterInc s none = none :=
  rfl
